import Mathlib

/-!
Verification of the PromptContextExporter utility (`cc.py`).

The development shallowly embeds the program:

* The filesystem is a finite association list from relative paths
  (`List String`, `[]` denoting the chosen base directory) to entries
  (regular file with content, or directory).  `Path.rglob("*")` becomes an
  enumeration of all stored paths strictly below a directory.
* Python dicts (`selected_items`, `id_to_path`) become insertion-ordered
  association lists; `lookupA`/`setA`/`popA` mirror `d[k]`, `d[k] = v` and
  `d.pop(k, None)`, and iteration over a dict is iteration over the key list
  in insertion order, raising (modelled with `Except`) when the size changes
  mid-iteration, exactly as CPython does.
* The `ttk.Treeview` widget becomes a forest of `Item` nodes (id, display
  text, ordered children); tree ids are allocated from a counter.
* File writes become updates of an association list from paths to contents.

Every definition is translated from the source of `cc.py`; the few
predicates written from the specification's wording (for refinement-style
claims) are marked as such in their doc comments.
-/

set_option autoImplicit false

namespace PCE

/-! ## Insertion-ordered dictionaries (Python `dict` as an association list) -/

variable {κ : Type} {α : Type}

/-- Lookup of the first binding of a key, `d.get(k)` / `d[k]`. -/
def lookupA [DecidableEq κ] : List (κ × α) → κ → Option α
  | [], _ => none
  | (k, v) :: rest, q => if k = q then some v else lookupA rest q

/-- `d[k] = v`: update the binding in place if the key is present,
otherwise append the new binding at the end (insertion order). -/
def setA [DecidableEq κ] : List (κ × α) → κ → α → List (κ × α)
  | [], k, v => [(k, v)]
  | (k', v') :: rest, k, v =>
    if k' = k then (k, v) :: rest else (k', v') :: setA rest k v

/-- `d.pop(k, None)`: remove the binding of `k` (first occurrence). -/
def popA [DecidableEq κ] : List (κ × α) → κ → List (κ × α)
  | [], _ => []
  | (k', v') :: rest, k => if k' = k then rest else (k', v') :: popA rest k

/-! ## Filesystem model -/

/-- A path relative to the base directory; `[]` is the base directory. -/
abbrev Path := List String

/-- One filesystem entry: a regular file with its raw text content, or a
directory. -/
inductive FsNode : Type where
  | file (content : String)
  | dir
deriving DecidableEq

/-- A finite filesystem: all entries strictly below the base directory,
keyed by relative path.  The base directory itself is implicit (it is a
directory). -/
structure Fs : Type where
  entries : List (Path × FsNode)

/-- Resolve a path in the filesystem. -/
def lookupFs (fs : Fs) (p : Path) : Option FsNode :=
  lookupA fs.entries p

/-- `p.is_file()`. -/
def isFileAt (fs : Fs) (p : Path) : Bool :=
  match lookupFs fs p with
  | some (.file _) => true
  | _ => false

/-- `p.is_dir()`; the base directory `[]` is a directory. -/
def isDirAt (fs : Fs) (p : Path) : Bool :=
  p.isEmpty ||
    match lookupFs fs p with
    | some .dir => true
    | _ => false

/-- Raw text content of a file (the empty string off files; only applied to
paths that resolve to files). -/
def contentAt (fs : Fs) (p : Path) : String :=
  match lookupFs fs p with
  | some (.file c) => c
  | _ => ""

/-- `path.name` of a relative path (the base directory has its own display
name, passed separately where needed). -/
def lastName (p : Path) : String := p.getLastD ""

/-! ## Global settings (`CODE_EXTENSIONS`, `IGNORE_DIRS`, filenames) -/

def CODE_EXTENSIONS : List String :=
  [".py", ".js", ".ts", ".tsx", ".jsx", ".cs", ".cpp", ".c", ".h", ".hpp",
   ".java", ".kt", ".swift", ".rb", ".php", ".go", ".rs"]

def IGNORE_DIRS : List String :=
  [".git", ".hg", ".svn", ".venv", "venv", "__pycache__", "node_modules"]

def EXPORT_FILENAME : String := "export.txt"

/-! ## Path helpers (`pathlib` fragments used by the program) -/

/-- ASCII lowering, `str.lower()` on the characters the program cares
about. -/
def lowerStr (s : String) : String := String.mk (s.data.map Char.toLower)

/-- Code-point comparison of characters. -/
def charLtB (a b : Char) : Bool := decide (a.toNat < b.toNat)

/-- Lexicographic comparison of strings by code points (Python `str <`). -/
def charsLtB : List Char → List Char → Bool
  | _, [] => false
  | [], _ :: _ => true
  | a :: as, b :: bs => if a = b then charsLtB as bs else charLtB a b

/-- `name.startswith(".")`. -/
def startsDot (s : String) : Bool :=
  match s.data with
  | c :: _ => c = '.'
  | [] => false

/-- `PurePath.suffix`: the extension of the final component.  CPython:
take the last index `i` of a dot in the name and return the slice from `i`
when `0 < i < len(name) - 1`, otherwise the empty string. -/
def sfx (name : String) : String :=
  let cs := name.toList
  let dots := (List.range cs.length).filter (fun i => cs.getD i ' ' = '.')
  match dots.getLast? with
  | some i => if 0 < i ∧ i < cs.length - 1 then String.mk (cs.drop i) else ""
  | none => ""

/-- `p.suffix.lower()` for a relative path. -/
def sfxLower (p : Path) : String := lowerStr (sfx (lastName p))

/-- `p.suffix.lower() in CODE_EXTENSIONS`. -/
def extOkB (p : Path) : Bool := decide (sfxLower p ∈ CODE_EXTENSIONS)

/-- Is `d` a strict ancestor of `q` (i.e. `q` lies strictly below the
directory `d`)? -/
def isUnder : Path → Path → Bool
  | _, [] => false
  | [], _ :: _ => true
  | a :: as, b :: bs => if a = b then isUnder as bs else false

/-- `relativize(path, base)`: the program joins the parts of
`path.relative_to(base)` with the separator; paths in the model are already
base-relative, so this joins the segments. -/
def relativize (p : Path) : String := String.intercalate "/" p

/-! ## Pure helpers of the program -/

/-- `normalize_newlines`, first step: `text.replace("\r\n", "\n")`
(leftmost, non-overlapping). -/
def replCRLF : List Char → List Char
  | '\r' :: '\n' :: rest => '\n' :: replCRLF rest
  | c :: rest => c :: replCRLF rest
  | [] => []

/-- `normalize_newlines(text)`:
`text.replace("\r\n", "\n").replace("\r", "\n")`. -/
def normalize_newlines (s : String) : String :=
  String.mk ((replCRLF s.toList).map (fun c => if c = '\r' then '\n' else c))

/-- `read_file(path)`: read the content and normalize newlines. -/
def read_file (fs : Fs) (p : Path) : String :=
  normalize_newlines (contentAt fs p)

/-- `directory.rglob("*")`: every stored path strictly below `directory`. -/
def rglob (fs : Fs) (d : Path) : List Path :=
  (fs.entries.map Prod.fst).filter (fun q => isUnder d q)

/-- One relative path segment is acceptable when it neither starts with a
dot nor lies in `IGNORE_DIRS`; this is the condition tested per part in the
comprehension of `collect_code_files_in_dir`. -/
def partOkB (s : String) : Bool := !(startsDot s || decide (s ∈ IGNORE_DIRS))

/-- `collect_code_files_in_dir(directory)`: the list comprehension over
`directory.rglob("*")` keeping regular files with an allowed extension all
of whose relative path parts are acceptable. -/
def collect_code_files_in_dir (fs : Fs) (d : Path) : List Path :=
  (rglob fs d).filter
    (fun p => isFileAt fs p && extOkB p && (p.drop d.length).all partOkB)

/-- One iteration of the body of the `for rel, code in entries` loop of
`write_export`: the four `out.write(...)` calls appended to the stream. -/
def writeBlock (out : String) (rel code : String) : String :=
  (((out ++ ("Datei: \"" ++ rel ++ "\"\n")) ++ "Code: \"\"\"\\\n") ++ code)
    ++ "\n\"\"\"\n\n"

/-- `write_export(base_dir, entries)`: open `base_dir / EXPORT_FILENAME`
for writing (overwriting an existing file), stream all blocks, and return
the written path together with the updated file store. -/
def write_export (store : List (Path × String)) (baseDir : Path)
    (entries : List (String × String)) : Path × List (Path × String) :=
  let outPath := baseDir ++ [EXPORT_FILENAME]
  let content := entries.foldl (fun out e => writeBlock out e.1 e.2) ""
  (outPath, setA store outPath content)

/-! ## The export half of `main()` (after the dialog is confirmed) -/

/-- Terminal behaviour of a run of `main()` after the dialog returned a
selection: `sys.exit(msg)` (message printed, non-zero process exit) or a
successful export (message box, summary line, exit 0) with the written
path and the number of exported files. -/
inductive ExportOutcome : Type where
  | exitFailure (msg : String)
  | success (outPath : Path) (count : Nat)
deriving DecidableEq

/-- `files_to_export`: union of the recursively collected files of every
checked directory with every checked file whose extension is allowed (the
Python `set`, as a deduplicated list). -/
def files_to_export (fs : Fs) (selDirs selFiles : List Path) : List Path :=
  ((selDirs.flatMap (fun d => collect_code_files_in_dir fs d))
    ++ selFiles.filter (fun f => decide (sfxLower f ∈ CODE_EXTENSIONS))).dedup

/-- `sorted(...)` on paths: `PurePath` ordering, componentwise on parts. -/
def pathLtB : Path → Path → Bool
  | _, [] => false
  | [], _ :: _ => true
  | a :: as, b :: bs => if a = b then pathLtB as bs else charsLtB a.data b.data

/-- Stable insertion of a path into a sorted list (earlier elements win on
equal order). -/
def insPath (x : Path) : List Path → List Path
  | [] => [x]
  | y :: ys => if pathLtB y x then y :: insPath x ys else x :: y :: ys

/-- `sorted` on a list of paths. -/
def sortPaths (l : List Path) : List Path := l.foldr insPath []

/-- The part of `main()` that runs on a confirmed selection
`(sel_dirs, sel_files)`: the guards, the working-set construction and the
final write.  Failure exits leave the file store untouched. -/
def run_export (fs : Fs) (store : List (Path × String))
    (selDirs selFiles : List Path) : ExportOutcome × List (Path × String) :=
  if selDirs.isEmpty && selFiles.isEmpty then
    (.exitFailure "Keine Ordner/Dateien ausgewählt.", store)
  else
    let fte := files_to_export fs selDirs selFiles
    if fte.isEmpty then
      (.exitFailure "Keine passenden Code-Dateien gefunden.", store)
    else
      let entries := (sortPaths fte).map (fun p => (relativize p, read_file fs p))
      let w := write_export store [] entries
      (.success w.1 fte.length, w.2)

/-! ## The `ttk.Treeview` widget and the selection dialog -/

/-- One Treeview item: its id, its display text and its ordered children.
The forest of top-level items is a `List Item`. -/
inductive Item : Type where
  | mk (id : Nat) (text : String) (children : List Item)

/-- The Treeview id of an item. -/
def Item.idOf : Item → Nat
  | .mk i _ _ => i

/-- The display text of an item. -/
def Item.textOf : Item → String
  | .mk _ t _ => t

/-- The children of an item (`tree.get_children(item)`). -/
def Item.childrenOf : Item → List Item
  | .mk _ _ cs => cs

/-- The state of a `TreeSelectDialog`: the widget forest, the two dicts
`selected_items` and `id_to_path`, and the Treeview id counter. -/
structure DState : Type where
  items : List Item
  selected : List (Nat × Bool)
  idToPath : List (Nat × Path)
  nextId : Nat

mutual

/-- First item with the given id, in depth-first preorder
(Treeview item lookup by id). -/
def findFirst (tid : Nat) : List Item → Option Item
  | [] => none
  | c :: cs =>
    if c.idOf = tid then some c
    else
      match findFirstIn tid c with
      | some r => some r
      | none => findFirst tid cs

/-- Search inside an item's descendants. -/
def findFirstIn (tid : Nat) : Item → Option Item
  | .mk _ _ cs => findFirst tid cs

end

mutual

/-- Replace the first item with the given id (depth-first preorder) by the
image under `f`; `none` when no item has the id. -/
def updFirst (tid : Nat) (f : Item → Item) : List Item → Option (List Item)
  | [] => none
  | c :: cs =>
    if c.idOf = tid then some (f c :: cs)
    else
      match updFirstIn tid f c with
      | some c2 => some (c2 :: cs)
      | none =>
        match updFirst tid f cs with
        | some cs2 => some (c :: cs2)
        | none => none

/-- Replace inside an item's descendants. -/
def updFirstIn (tid : Nat) (f : Item → Item) : Item → Option Item
  | .mk i t cs =>
    match updFirst tid f cs with
    | some cs2 => some (.mk i t cs2)
    | none => none

end

/-- Apply `f` to the item with id `tid` in the forest (unchanged when the
id does not exist, which cannot happen for a valid Tk call). -/
def updAt (l : List Item) (tid : Nat) (f : Item → Item) : List Item :=
  (updFirst tid f l).getD l

/-- `tree.get_children(tid)` on a dialog state. -/
def getChildren (st : DState) (tid : Nat) : List Item :=
  match findFirst tid st.items with
  | some it => it.childrenOf
  | none => []

/-- `UNCHECKED`/`CHECKED` box plus a space plus the bare name
(`f"{CHECKED if state else UNCHECKED} {name}"`). -/
def boxText (b : Bool) (name : String) : String :=
  (if b then "☑" else "☐") ++ " " ++ name

/-- Everything after the first space character. -/
def afterFirstSpace : List Char → List Char
  | [] => []
  | c :: cs => if c = ' ' then cs else afterFirstSpace cs

/-- `text.split(" ", 1)[1] if " " in text else text`: the bare name behind
the checkbox glyph. -/
def stripBox (t : String) : String :=
  if ' ' ∈ t.toList then String.mk (afterFirstSpace t.toList) else t

mutual

/-- The text rewriting `_set_item_state` performs on the item itself and,
recursively, on every currently loaded descendant. -/
def markTree (b : Bool) : Item → Item
  | .mk i t cs => .mk i (boxText b (stripBox t)) (markList b cs)

/-- `markTree` on a list of children, in order. -/
def markList (b : Bool) : List Item → List Item
  | [] => []
  | c :: cs => markTree b c :: markList b cs

end

mutual

/-- The ids of an item and of all its currently loaded descendants, in the
preorder in which `_set_item_state` visits them. -/
def subtreeIds : Item → List Nat
  | .mk i _ cs => i :: subtreeIdsList cs

/-- `subtreeIds` over a list of children, in order. -/
def subtreeIdsList : List Item → List Nat
  | [] => []
  | c :: cs => subtreeIds c ++ subtreeIdsList cs

end

/-- The ids of the subtree rooted at `tid` in a state ([] when the id does
not exist). -/
def subtreeIdsAt (st : DState) (tid : Nat) : List Nat :=
  match findFirst tid st.items with
  | some it => subtreeIds it
  | none => []

/-- `_set_item_state(item_id, state)`: rewrite the checkbox text of the
item and of every loaded descendant, and assign `state` to each of their
ids in `selected_items` (inserting ids, dummies included, that were never
registered).  When the id does not exist in the widget the Tk call would
raise; the state is returned unchanged (unreachable from the dialog). -/
def set_item_state (st : DState) (tid : Nat) (b : Bool) : DState :=
  match findFirst tid st.items with
  | none => st
  | some sub =>
    { st with
      items := updAt st.items tid (markTree b)
      selected := (subtreeIds sub).foldl (fun d i => setA d i b) st.selected }

/-- `_toggle_item(item_id, new_state)`: flip when `new_state` is `none`
(`self.selected_items[item_id]` would raise `KeyError` on an unregistered
id; returned unchanged there). -/
def toggle_item (st : DState) (tid : Nat) (newState : Option Bool) : DState :=
  match lookupA st.selected tid with
  | none => st
  | some cur => set_item_state st tid (newState.getD (!cur))

/-- The name filter of `_build_tree`/`on_open`:
`child.name.startswith(".") or child.name in IGNORE_DIRS`. -/
def hiddenName (n : String) : Bool :=
  startsDot n || decide (n ∈ IGNORE_DIRS)

/-- `str.lower()` comparison used as sort key: `p.name.lower()`. -/
def nameLtB (a b : String) : Bool := charsLtB (lowerStr a).data (lowerStr b).data

/-- Stable insertion for `sorted(..., key=lambda p: p.name.lower())`. -/
def insByLower (x : String) : List String → List String
  | [] => [x]
  | y :: ys => if nameLtB y x then y :: insByLower x ys else x :: y :: ys

/-- `sorted(path.iterdir(), key=lambda p: p.name.lower())` followed by the
hidden-name `continue` filter of the iteration. -/
def visibleSorted (fs : Fs) (p : Path) : List String :=
  ((fs.entries.filterMap (fun e =>
      if e.1.length = p.length + 1 ∧ e.1.take p.length = p
      then e.1.getLast? else none)).foldr insByLower []).filter
    (fun n => !hiddenName n)

/-- The Treeview item a call of `insert_node` creates: unchecked box text,
and for a directory one unregistered dummy child (fresh id, empty text) so
that the directory appears expandable. -/
def newNode (fs : Fs) (nid : Nat) (p : Path) : Item :=
  .mk nid (boxText false (lastName p))
    (if isDirAt fs p then [.mk (nid + 1) "" []] else [])

/-- Append a child at the end of an item's children
(`tree.insert(parent_id, "end", ...)`). -/
def pushNode (child : Item) (it : Item) : Item :=
  .mk it.idOf it.textOf (it.childrenOf ++ [child])

/-- `insert_node(parent_id, path)`: create a fresh unchecked node for the
path under the parent and register it in both dicts. -/
def insert_node (fs : Fs) (st : DState) (parentId : Nat) (p : Path) : DState :=
  { items := updAt st.items parentId (pushNode (newNode fs st.nextId p))
    selected := setA st.selected st.nextId false
    idToPath := setA st.idToPath st.nextId p
    nextId := st.nextId + (if isDirAt fs p then 2 else 1) }

/-- `_build_tree` on the chosen base directory: the root node (id 0,
registered, no dummy) plus one level of visible children. -/
def build_tree (fs : Fs) (baseName : String) : DState :=
  let st0 : DState :=
    { items := [.mk 0 (boxText false baseName) []]
      selected := [(0, false)]
      idToPath := [(0, ([] : Path))]
      nextId := 1 }
  (visibleSorted fs []).foldl (fun st n => insert_node fs st 0 [n]) st0

/-- Drop the first child of an item (`tree.delete(first)` on the dummy). -/
def dropFirstChild : Item → Item
  | .mk i t cs => .mk i t cs.tail

/-- `on_open(event)` for a given focused item: when the item has children
and the first one is an unregistered childless dummy, delete the dummy,
drop it from `selected_items`, list the directory and insert a fresh node
per visible child; otherwise do nothing.  The second component counts the
filesystem listings (`path.iterdir()` calls) performed. -/
def on_open (fs : Fs) (st : DState) (item : Nat) : DState × Nat :=
  match getChildren st item with
  | [] => (st, 0)
  | first :: _ =>
    match lookupA st.idToPath first.idOf, first.childrenOf with
    | none, [] =>
      let st1 : DState :=
        { st with
          items := updAt st.items item dropFirstChild
          selected := popA st.selected first.idOf }
      match lookupA st1.idToPath item with
      | none => (st1, 0)
      | some p =>
        ((visibleSorted fs p).foldl (fun s n => insert_node fs s item (p ++ [n])) st1, 1)
    | _, _ => (st, 0)

/-- One step of the `for iid in self.selected_items` loops of
`_select_all`/`_deselect_all` over the snapshot of keys, with CPython's
dict-iterator guard: before yielding the next key (and before finishing)
the iterator checks that the dict still has the size it had when the
iterator was created, and raises `RuntimeError` otherwise.  The error
value carries the state at the moment of the raise. -/
def setAllLoop (b : Bool) (size0 : Nat) : DState → List Nat → Except DState DState
  | st, [] => if st.selected.length = size0 then .ok st else .error st
  | st, k :: rest =>
    if st.selected.length = size0 then setAllLoop b size0 (set_item_state st k b) rest
    else .error st

/-- `_select_all()`. -/
def select_all (st : DState) : Except DState DState :=
  setAllLoop true st.selected.length st (st.selected.map Prod.fst)

/-- `_deselect_all()`. -/
def deselect_all (st : DState) : Except DState DState :=
  setAllLoop false st.selected.length st (st.selected.map Prod.fst)

/-- Did the call raise? -/
def isErr {ε σ : Type} : Except ε σ → Bool
  | .error _ => true
  | .ok _ => false

/-- The loop body of `_on_ok`: skip unchecked ids, skip ids that are not
in `id_to_path` (`self.id_to_path.get(iid)` is `None` for the dummies),
and append the path of every other id to the directory or file list. -/
def onOkStep (fs : Fs) (idToPath : List (Nat × Path))
    (acc : List Path × List Path) (kv : Nat × Bool) : List Path × List Path :=
  if kv.2 then
    match lookupA idToPath kv.1 with
    | none => acc
    | some p => if isDirAt fs p then (acc.1 ++ [p], acc.2) else (acc.1, acc.2 ++ [p])
  else acc

/-- `_on_ok()`: walk `selected_items` in insertion order and partition the
paths of the checked, registered ids into directories and files; ids
absent from `id_to_path` (the dummies) are skipped. -/
def on_ok (fs : Fs) (st : DState) : List Path × List Path :=
  st.selected.foldl (onOkStep fs st.idToPath) ([], [])

/-! ## Spec-side definitions used to state refinement claims -/

/-- One output block as the specification's wire format (§6) describes it:
the `Datei: "<path>"` line, the `Code: """\` line, the content, the
closing `"""` line, one blank line. -/
def specBlock (rel code : String) : String :=
  "Datei: \"" ++ rel ++ "\"\n" ++ "Code: \"\"\"\\\n" ++ code ++ "\n\"\"\"\n\n"

/-- Concatenation of the blocks of all entries, in entry order, with no
separator. -/
def concatBlocks : List (String × String) → String
  | [] => ""
  | e :: rest => specBlock e.1 e.2 ++ concatBlocks rest

/-- Following the specification's wording (§4.1): `isExportableFile(path)`
is true when the path is a regular file and its extension
(case-insensitive, leading dot included) is in the fixed allow-list. -/
def isExportableFile (fs : Fs) (p : Path) : Bool :=
  isFileAt fs p && decide (sfxLower p ∈ CODE_EXTENSIONS)

/-- Structural side condition for the double-expand claim: if the first
child of the item is an unregistered childless dummy, it is the only
child.  Every reachable dialog state satisfies this for every id: a
directory node's children are either exactly the one dummy placeholder
(`insert_node`) or the real nodes of one `on_open` expansion. -/
def dummyOnlyOk (st : DState) (tid : Nat) : Bool :=
  match getChildren st tid with
  | [] => true
  | first :: rest =>
    match lookupA st.idToPath first.idOf, first.childrenOf with
    | none, [] => rest.isEmpty
    | _, _ => true

/-- Invariant used for the double-expand claim: the item either has no
children, or the id of its first child is already allocated and registered
in `id_to_path`. -/
def childHeadOk (st : DState) (tid : Nat) : Prop :=
  match getChildren st tid with
  | [] => True
  | c :: _ => c.idOf < st.nextId ∧ (lookupA st.idToPath c.idOf).isSome = true

/-! ## Concrete filesystems used by witnesses -/

/-- A small base directory: `a.py`, and a subdirectory `sub` containing
`b.py`. -/
def fs1 : Fs :=
  ⟨[(["a.py"], .file "x=1\n"), (["sub"], .dir), (["sub", "b.py"], .file "y\n")]⟩

/-- A base directory holding one file with mixed line endings. -/
def fs9 : Fs := ⟨[(["m.py"], .file "a\r\nb\rc\n")]⟩

/-! ## Dictionary lemmas -/

theorem lookupA_setA [DecidableEq κ] (d : List (κ × α)) (k : κ) (v : α) (q : κ) :
    lookupA (setA d k v) q = if k = q then some v else lookupA d q := by
  induction d with
  | nil => simp [setA, lookupA]
  | cons e rest ih =>
    obtain ⟨k', v'⟩ := e
    by_cases h : k' = k
    · subst h
      by_cases hq : k' = q <;> simp [setA, lookupA, hq]
    · by_cases hq : k' = q
      · subst hq
        have : ¬k = k' := fun he => h he.symm
        simp [setA, lookupA, h, this]
      · simp [setA, lookupA, h, hq, ih]

theorem lookupA_not_mem [DecidableEq κ] (d : List (κ × α)) (q : κ)
    (h : q ∉ d.map Prod.fst) : lookupA d q = none := by
  induction d with
  | nil => rfl
  | cons e rest ih =>
    simp only [List.map_cons, List.mem_cons] at h
    push_neg at h
    have : ¬e.1 = q := fun he => h.1 (he ▸ rfl)
    obtain ⟨k', v'⟩ := e
    simpa [lookupA, this] using ih h.2

theorem lookupA_mem_of_some [DecidableEq κ] (d : List (κ × α)) (q : κ) (v : α)
    (h : lookupA d q = some v) : q ∈ d.map Prod.fst := by
  induction d with
  | nil => simp [lookupA] at h
  | cons e rest ih =>
    obtain ⟨k', v'⟩ := e
    by_cases hq : k' = q
    · simp [hq]
    · simp only [lookupA, if_neg hq] at h
      simp [ih h]

theorem lookupA_popA_of_some [DecidableEq κ] (d : List (κ × α)) (k q : κ) (v : α)
    (hnd : (d.map Prod.fst).Nodup) (h : lookupA (popA d k) q = some v) :
    lookupA d q = some v := by
  induction d with
  | nil => simp [popA, lookupA] at h
  | cons e rest ih =>
    obtain ⟨k', v'⟩ := e
    simp only [List.map_cons, List.nodup_cons] at hnd
    by_cases hk : k' = k
    · subst hk
      simp only [popA, if_pos rfl] at h
      by_cases hq : k' = q
      · subst hq
        exact absurd (lookupA_mem_of_some rest k' v h) hnd.1
      · simpa [lookupA, hq] using h
    · simp only [popA, if_neg hk] at h
      by_cases hq : k' = q
      · simpa [lookupA, hq] using h
      · simp only [lookupA, if_neg hq] at h ⊢
        exact ih hnd.2 h

theorem lookupA_foldSet [DecidableEq κ] (b : α) (ids : List κ) :
    ∀ (d : List (κ × α)) (q : κ),
      lookupA (ids.foldl (fun d i => setA d i b) d) q
        = if q ∈ ids then some b else lookupA d q := by
  induction ids with
  | nil => intro d q; simp
  | cons i rest ih =>
    intro d q
    rw [List.foldl_cons, ih]
    by_cases hq : q ∈ rest
    · simp [hq]
    · by_cases hqi : q = i
      · subst hqi
        simp [hq, lookupA_setA]
      · have : ¬i = q := fun he => hqi he.symm
        simp [hq, hqi, lookupA_setA, this]

/-! ## Structural lemmas about the item forest -/

theorem item_mutual_ind (P : Item → Prop) (Q : List Item → Prop)
    (hmk : ∀ i t cs, Q cs → P (.mk i t cs))
    (hnil : Q [])
    (hcons : ∀ c cs, P c → Q cs → Q (c :: cs)) :
    (∀ it, P it) ∧ (∀ l, Q l) :=
  ⟨fun it => Item.rec (motive_1 := P) (motive_2 := Q) hmk hnil hcons it,
   fun l => List.rec hnil
     (fun c cs ih => hcons c cs (Item.rec (motive_1 := P) (motive_2 := Q) hmk hnil hcons c) ih) l⟩

theorem findFirst_idOf (tid : Nat) :
    (∀ it r, findFirstIn tid it = some r → r.idOf = tid) ∧
    (∀ (l : List Item) (r : Item), findFirst tid l = some r → r.idOf = tid) := by
  have h := item_mutual_ind
    (fun it => ∀ r, findFirstIn tid it = some r → r.idOf = tid)
    (fun l => ∀ r, findFirst tid l = some r → r.idOf = tid) ?_ ?_ ?_
  · exact ⟨h.1, h.2⟩
  · intro i t cs ih r hr
    simp only [findFirstIn] at hr
    exact ih r hr
  · intro r hr
    simp [findFirst] at hr
  · intro c cs ihc ihcs r hr
    simp only [findFirst] at hr
    by_cases hid : c.idOf = tid
    · rw [if_pos hid] at hr
      obtain rfl : c = r := by injection hr
      exact hid
    · rw [if_neg hid] at hr
      cases hin : findFirstIn tid c with
      | some r2 => rw [hin] at hr; injection hr with hr2; exact hr2 ▸ ihc r2 hin
      | none => rw [hin] at hr; exact ihcs r hr

theorem updFirst_findFirst (tid : Nat) (f : Item → Item)
    (hf : ∀ it, (f it).idOf = it.idOf) :
    (∀ it : Item,
      (updFirstIn tid f it = none ↔ findFirstIn tid it = none) ∧
      ∀ it2, updFirstIn tid f it = some it2 →
        (it2.idOf = it.idOf ∧ findFirstIn tid it2 = (findFirstIn tid it).map f)) ∧
    (∀ l : List Item,
      (updFirst tid f l = none ↔ findFirst tid l = none) ∧
      ∀ l2, updFirst tid f l = some l2 → findFirst tid l2 = (findFirst tid l).map f) := by
  refine item_mutual_ind _ _ ?_ ?_ ?_
  · -- items: .mk i t cs, from the list hypothesis on cs
    intro i t cs ih
    constructor
    · simp only [updFirstIn, findFirstIn]
      cases hu : updFirst tid f cs with
      | none => simp [ih.1.mp hu]
      | some cs2 =>
        have : findFirst tid cs ≠ none := fun hn => by
          rw [ih.1.mpr hn] at hu; cases hu
        simp [this]
    · intro it2 h2
      simp only [updFirstIn] at h2
      cases hu : updFirst tid f cs with
      | none => rw [hu] at h2; cases h2
      | some cs2 =>
        rw [hu] at h2
        obtain rfl : Item.mk i t cs2 = it2 := by injection h2
        exact ⟨rfl, by simpa [findFirstIn] using ih.2 cs2 hu⟩
  · -- nil
    constructor
    · simp [updFirst, findFirst]
    · intro l2 h2; simp [updFirst] at h2
  · -- cons
    intro c cs ihc ihcs
    by_cases hid : c.idOf = tid
    · constructor
      · simp [updFirst, findFirst, hid]
      · intro l2 h2
        simp only [updFirst, if_pos hid] at h2
        obtain rfl : f c :: cs = l2 := by injection h2
        simp [findFirst, hid, hf c]
    · constructor
      · simp only [updFirst, findFirst, if_neg hid]
        cases hin : updFirstIn tid f c with
        | some c2 =>
          have : findFirstIn tid c ≠ none := fun hn => by
            rw [ihc.1.mpr hn] at hin; cases hin
          cases hfin : findFirstIn tid c with
          | some r => simp
          | none => exact absurd hfin this
        | none =>
          rw [ihc.1.mp hin]
          cases hrest : updFirst tid f cs with
          | some cs2 =>
            have : findFirst tid cs ≠ none := fun hn => by
              rw [ihcs.1.mpr hn] at hrest; cases hrest
            cases hfr : findFirst tid cs with
            | some r => simp
            | none => exact absurd hfr this
          | none => simp [ihcs.1.mp hrest]
      · intro l2 h2
        simp only [updFirst, if_neg hid] at h2
        cases hin : updFirstIn tid f c with
        | some c2 =>
          rw [hin] at h2
          obtain rfl : c2 :: cs = l2 := by injection h2
          obtain ⟨hcid, hcfind⟩ := ihc.2 c2 hin
          have hne : ¬c2.idOf = tid := by rw [hcid]; exact hid
          cases hfin : findFirstIn tid c with
          | some r =>
            simp only [findFirst, if_neg hne, if_neg hid, hcfind, hfin, Option.map_some']
          | none =>
            have : updFirstIn tid f c = none := ihc.1.mpr hfin
            rw [this] at hin; cases hin
        | none =>
          rw [hin] at h2
          cases hrest : updFirst tid f cs with
          | some cs2 =>
            rw [hrest] at h2
            obtain rfl : c :: cs2 = l2 := by injection h2
            have hfin : findFirstIn tid c = none := ihc.1.mp hin
            simp only [findFirst, if_neg hid, hfin, ihcs.2 cs2 hrest]
          | none => rw [hrest] at h2; cases h2

theorem findFirst_updAt (l : List Item) (tid : Nat) (f : Item → Item)
    (hf : ∀ it, (f it).idOf = it.idOf) :
    findFirst tid (updAt l tid f) = (findFirst tid l).map f := by
  unfold updAt
  cases hu : updFirst tid f l with
  | some l2 => simpa using ((updFirst_findFirst tid f hf).2 l).2 l2 hu
  | none =>
    have h1 : findFirst tid l = none := ((updFirst_findFirst tid f hf).2 l).1.mp hu
    simp [h1]

/-! ## Block-format lemmas -/

theorem writeBlock_eq (out rel code : String) :
    writeBlock out rel code = out ++ specBlock rel code := by
  simp [writeBlock, specBlock, String.append_assoc]

theorem foldl_writeBlock (entries : List (String × String)) :
    ∀ acc : String,
      entries.foldl (fun out e => writeBlock out e.1 e.2) acc
        = acc ++ concatBlocks entries := by
  induction entries with
  | nil => intro acc; simp [concatBlocks, String.append_empty]
  | cons e rest ih =>
    intro acc
    rw [List.foldl_cons, ih, writeBlock_eq, concatBlocks, String.append_assoc]

/-! ## Path-filter lemmas -/

theorem isFileAt_iff_lookup (fs : Fs) (p : Path) :
    isFileAt fs p = true ↔ ∃ c, lookupFs fs p = some (.file c) := by
  unfold isFileAt
  cases h : lookupFs fs p with
  | none => simp
  | some n => cases n <;> simp

theorem partOkB_iff (s : String) :
    partOkB s = true ↔ (startsDot s = false ∧ s ∉ IGNORE_DIRS) := by
  simp [partOkB, Bool.not_eq_true', Bool.or_eq_false_iff,
    decide_eq_false_iff_not]

/-- Characterization of membership in `collect_code_files_in_dir`: shared
by the theorems for C3 and C4. -/
theorem mem_collect_iff (fs : Fs) (d p : Path) :
    p ∈ collect_code_files_in_dir fs d ↔
      (isFileAt fs p = true ∧ isUnder d p = true ∧
       sfxLower p ∈ CODE_EXTENSIONS ∧
       ∀ s ∈ p.drop d.length, startsDot s = false ∧ s ∉ IGNORE_DIRS) := by
  unfold collect_code_files_in_dir rglob
  rw [List.mem_filter, List.mem_filter]
  constructor
  · rintro ⟨⟨-, hunder⟩, hpred⟩
    simp only [Bool.and_eq_true, extOkB, decide_eq_true_eq, List.all_eq_true] at hpred
    refine ⟨hpred.1.1, hunder, hpred.1.2, fun s hs => (partOkB_iff s).mp (hpred.2 s hs)⟩
  · rintro ⟨hfile, hunder, hext, hseg⟩
    obtain ⟨c, hc⟩ := (isFileAt_iff_lookup fs p).mp hfile
    refine ⟨⟨lookupA_mem_of_some fs.entries p _ hc, hunder⟩, ?_⟩
    simp only [Bool.and_eq_true, extOkB, decide_eq_true_eq, List.all_eq_true]
    exact ⟨⟨hfile, hext⟩, fun s hs => (partOkB_iff s).mpr (hseg s hs)⟩

/-! ## Claim theorems -/

/-- C2: for every base directory and every ordered list of entries,
`write_export` writes the single file `export.txt` directly inside the
base directory, overwriting any existing file of that name (all other
stored files are untouched), and its content is exactly the concatenation,
in entry order with no extra separator, of one block per entry in the wire
format of §6. -/
theorem write_export_bitformat (store : List (Path × String)) (baseDir : Path)
    (entries : List (String × String)) :
    (write_export store baseDir entries).1 = baseDir ++ [EXPORT_FILENAME] ∧
    lookupA (write_export store baseDir entries).2 (baseDir ++ [EXPORT_FILENAME])
      = some (concatBlocks entries) ∧
    ∀ q, q ≠ baseDir ++ [EXPORT_FILENAME] →
      lookupA (write_export store baseDir entries).2 q = lookupA store q := by
  refine ⟨rfl, ?_, ?_⟩
  · show lookupA (setA store _ _) _ = _
    rw [lookupA_setA, if_pos rfl, foldl_writeBlock, String.empty_append]
  · intro q hq
    show lookupA (setA store _ _) _ = _
    rw [lookupA_setA, if_neg (fun he => hq he.symm)]

/-- C2 witness: a store already holding an `export.txt` is overwritten
with the exact block text, and an unrelated path stays untouched. -/
theorem write_export_bitformat_witness :
    (write_export [([EXPORT_FILENAME], "old")] [] [("a.py", "x=1\n")]).1
      = [EXPORT_FILENAME] ∧
    lookupA (write_export [([EXPORT_FILENAME], "old")] [] [("a.py", "x=1\n")]).2
        [EXPORT_FILENAME]
      = some "Datei: \"a.py\"\nCode: \"\"\"\\\nx=1\n\n\"\"\"\n\n" ∧
    lookupA (write_export [([EXPORT_FILENAME], "old")] [] [("a.py", "x=1\n")]).2
        ["other"] = none := by
  have h := write_export_bitformat [([EXPORT_FILENAME], "old")] [] [("a.py", "x=1\n")]
  refine ⟨h.1, ?_, ?_⟩
  · rw [show (([] : Path) ++ [EXPORT_FILENAME]) = [EXPORT_FILENAME] from rfl] at h
    rw [h.2.1]; rfl
  · rw [h.2.2 ["other"] (by decide)]; decide

/-- C7: a confirmed selection with zero checked nodes (both collections
empty) makes the program terminate via `sys.exit` with the no-selection
message (a non-zero exit), and the file store is left untouched — the
export file is never opened or written. -/
theorem run_export_no_selection (fs : Fs) (store : List (Path × String)) :
    run_export fs store [] []
      = (.exitFailure "Keine Ordner/Dateien ausgewählt.", store) := rfl

/-- C8: a confirmed selection consisting of exactly one checked file whose
extension is not in the allow-list and no checked directories is silently
dropped, the working set is empty, and the program terminates via
`sys.exit` with the no-matching-files message, leaving the file store
untouched. -/
theorem run_export_single_nonexportable_file (fs : Fs) (store : List (Path × String))
    (f : Path) (h : sfxLower f ∉ CODE_EXTENSIONS) :
    run_export fs store [] [f]
      = (.exitFailure "Keine passenden Code-Dateien gefunden.", store) := by
  have hb : decide (sfxLower f ∈ CODE_EXTENSIONS) = false := decide_eq_false h
  simp [run_export, files_to_export, hb]

/-- C8 witness: a single checked `readme.txt` yields the
no-matching-files failure. -/
theorem run_export_single_nonexportable_file_witness :
    run_export fs1 [] [] [["readme.txt"]]
      = (.exitFailure "Keine passenden Code-Dateien gefunden.", []) :=
  run_export_single_nonexportable_file fs1 [] ["readme.txt"] (by decide)

/-- C4: every path `collect_code_files_in_dir(dir)` returns is a regular
file strictly below `dir` whose extension (case-insensitively) is in the
allow-list and none of whose path segments relative to `dir` starts with a
dot or lies in the ignore set; conversely every stored regular file
satisfying these conditions is returned. -/
theorem collect_code_files_characterization (fs : Fs) (d p : Path) :
    p ∈ collect_code_files_in_dir fs d ↔
      (isFileAt fs p = true ∧ isUnder d p = true ∧
       sfxLower p ∈ CODE_EXTENSIONS ∧
       ∀ s ∈ p.drop d.length, startsDot s = false ∧ s ∉ IGNORE_DIRS) :=
  mem_collect_iff fs d p

/-- C4 witness: `sub/b.py` is collected below the base directory of
`fs1`, by the completeness direction of the characterization evaluated at
concrete inputs. -/
theorem collect_code_files_characterization_witness :
    ["sub", "b.py"] ∈ collect_code_files_in_dir fs1 [] :=
  (collect_code_files_characterization fs1 [] ["sub", "b.py"]).mpr (by decide)

/-- C3: a checked individual file of a confirmed selection lands in the
working set of the export orchestrator exactly when `isExportableFile`
holds of it (it resolves to a regular file and its extension,
case-insensitively, is in the allow-list); otherwise it is silently
dropped. -/
theorem checked_file_in_working_set_iff (fs : Fs) (selDirs selFiles : List Path)
    (f : Path) (hmem : f ∈ selFiles) (hfile : isFileAt fs f = true) :
    f ∈ files_to_export fs selDirs selFiles ↔ isExportableFile fs f = true := by
  unfold files_to_export isExportableFile
  rw [List.mem_dedup, List.mem_append]
  constructor
  · rintro (hd | hf2)
    · rw [List.mem_flatMap] at hd
      obtain ⟨dd, -, hcol⟩ := hd
      obtain ⟨hfile2, -, hext, -⟩ := (mem_collect_iff fs dd f).mp hcol
      simp [hfile2, hext]
    · rw [List.mem_filter] at hf2
      simp only [decide_eq_true_eq] at hf2
      simp [hfile, hf2.2]
  · intro h
    simp only [Bool.and_eq_true, decide_eq_true_eq] at h
    exact Or.inr (List.mem_filter.mpr ⟨hmem, by simp [h.2]⟩)

/-- C3 witness: the checked file `a.py` of `fs1` is exportable and is
added to the working set. -/
theorem checked_file_in_working_set_iff_witness :
    ["a.py"] ∈ files_to_export fs1 [] [["a.py"]] :=
  (checked_file_in_working_set_iff fs1 [] [["a.py"]] ["a.py"]
    (by decide) (by decide)).mpr (by decide)

/-- C10 helper: anything the `_on_ok` fold adds to an accumulator comes
from a checked entry whose id is registered in `id_to_path`. -/
theorem on_ok_fold_mem (fs : Fs) (idToPath : List (Nat × Path)) (p : Path) :
    ∀ (entries : List (Nat × Bool)) (acc : List Path × List Path),
      (p ∈ (entries.foldl (onOkStep fs idToPath) acc).1 ∨
       p ∈ (entries.foldl (onOkStep fs idToPath) acc).2) →
      (p ∈ acc.1 ∨ p ∈ acc.2) ∨
      ∃ id, (id, true) ∈ entries ∧ lookupA idToPath id = some p := by
  intro entries
  induction entries with
  | nil => intro acc h; exact Or.inl h
  | cons kv rest ih =>
    intro acc h
    rw [List.foldl_cons] at h
    rcases ih (onOkStep fs idToPath acc kv) h with hacc | ⟨id, hidmem, hlook⟩
    · unfold onOkStep at hacc
      by_cases hb : kv.2 = true
      · rw [if_pos hb] at hacc
        cases hlp : lookupA idToPath kv.1 with
        | none => rw [hlp] at hacc; exact Or.inl hacc
        | some q =>
          rw [hlp] at hacc
          dsimp only at hacc
          have hkv : (kv.1, true) ∈ kv :: rest := by
            have : (kv.1, true) = kv := by rw [← hb]
            rw [this]; exact List.mem_cons_self kv rest
          by_cases hd : isDirAt fs q = true
          · rw [if_pos hd] at hacc
            rcases hacc with h1 | h2
            · rcases List.mem_append.mp h1 with h1a | h1b
              · exact Or.inl (Or.inl h1a)
              · obtain rfl : p = q := by simpa using h1b
                exact Or.inr ⟨kv.1, hkv, hlp⟩
            · exact Or.inl (Or.inr h2)
          · rw [if_neg hd] at hacc
            rcases hacc with h1 | h2
            · exact Or.inl (Or.inl h1)
            · rcases List.mem_append.mp h2 with h2a | h2b
              · exact Or.inl (Or.inr h2a)
              · obtain rfl : p = q := by simpa using h2b
                exact Or.inr ⟨kv.1, hkv, hlp⟩
      · rw [if_neg hb] at hacc; exact Or.inl hacc
    · exact Or.inr ⟨id, List.mem_cons_of_mem _ hidmem, hlook⟩

/-- C10: every path in the `SelectionResult` of `_on_ok` belongs to a
checked id that is registered in `id_to_path`, i.e. to a real tree node;
the dummy placeholder children (recorded as checked in `selected_items`
by a cascading toggle, but never registered in `id_to_path`) contribute no
path. -/
theorem harvest_paths_are_registered (fs : Fs) (st : DState) (p : Path)
    (h : p ∈ (on_ok fs st).1 ∨ p ∈ (on_ok fs st).2) :
    ∃ id, (id, true) ∈ st.selected ∧ lookupA st.idToPath id = some p := by
  rcases on_ok_fold_mem fs st.idToPath p st.selected ([], []) h with hacc | hex
  · simp at hacc
  · exact hex

/-- C10 witness: after toggling the unexpanded directory `sub` (which
records its dummy child as checked in `selected_items`), the harvested
path `sub` comes from the registered directory node. -/
theorem harvest_paths_are_registered_witness :
    ∃ id, (id, true) ∈ (set_item_state (build_tree fs1 "base") 2 true).selected ∧
      lookupA (set_item_state (build_tree fs1 "base") 2 true).idToPath id
        = some ["sub"] :=
  harvest_paths_are_registered fs1 (set_item_state (build_tree fs1 "base") 2 true)
    ["sub"] (by decide)

/-- C5 helper: the `insert_node` fold of an expansion only ever adds
`false` bindings to `selected_items`. -/
theorem insert_fold_selected (fs : Fs) (item : Nat) (p : Path) (names : List String) :
    ∀ (st : DState) (id : Nat) (bb : Bool),
      lookupA ((names.foldl (fun s n => insert_node fs s item (p ++ [n])) st).selected) id
        = some bb →
      lookupA st.selected id = some bb ∨ bb = false := by
  induction names with
  | nil => intro st id bb h; exact Or.inl h
  | cons n rest ih =>
    intro st id bb h
    rw [List.foldl_cons] at h
    rcases ih _ id bb h with h2 | h2
    · rw [show (insert_node fs st item (p ++ [n])).selected
          = setA st.selected st.nextId false from rfl] at h2
      rw [lookupA_setA] at h2
      by_cases hid : st.nextId = id
      · rw [if_pos hid] at h2
        injection h2 with h3
        exact Or.inr h3.symm
      · rw [if_neg hid] at h2
        exact Or.inl h2
    · exact Or.inr h2

/-- C5: children materialized by an expansion always start unchecked — a
binding of `selected_items` after `on_open` is either an old binding or
`false` — and a toggle (`_set_item_state`) assigns its new state exactly
to the node and its currently loaded descendants, leaving every other id
untouched, so descendants loaded later never inherit the state
retroactively. -/
theorem lazy_children_start_unchecked (fs : Fs) (st : DState)
    (item tid j : Nat) (b : Bool) :
    ((st.selected.map Prod.fst).Nodup →
      ∀ id bb, lookupA ((on_open fs st item).1).selected id = some bb →
        lookupA st.selected id = some bb ∨ bb = false) ∧
    lookupA (set_item_state st tid b).selected j
      = (if j ∈ subtreeIdsAt st tid then some b else lookupA st.selected j) := by
  constructor
  · intro hnd id bb h
    unfold on_open at h
    cases hc : getChildren st item with
    | nil => rw [hc] at h; exact Or.inl h
    | cons first rest =>
      rw [hc] at h
      dsimp only at h
      cases hlp : lookupA st.idToPath first.idOf with
      | some q => rw [hlp] at h; exact Or.inl h
      | none =>
        rw [hlp] at h
        cases hcf : first.childrenOf with
        | cons c2 cs2 => rw [hcf] at h; exact Or.inl h
        | nil =>
          rw [hcf] at h
          dsimp only at h
          cases hip : lookupA st.idToPath item with
          | none =>
            rw [hip] at h
            exact Or.inl (lookupA_popA_of_some _ _ _ _ hnd h)
          | some p =>
            rw [hip] at h
            rcases insert_fold_selected fs item p _ _ id bb h with h2 | h2
            · exact Or.inl (lookupA_popA_of_some _ _ _ _ hnd h2)
            · exact Or.inr h2
  · unfold set_item_state subtreeIdsAt
    cases hff : findFirst tid st.items with
    | none => simp
    | some sub =>
      simp only []
      rw [lookupA_foldSet]

/-- C5 witness: the child node of `sub` materialized by expansion (id 4)
is unchecked, and toggling the collapsed `sub` (id 2) checks exactly its
subtree, here the dummy id 3. -/
theorem lazy_children_start_unchecked_witness :
    (lookupA (build_tree fs1 "base").selected 4 = some false ∨ (false : Bool) = false) ∧
    lookupA (set_item_state (build_tree fs1 "base") 2 true).selected 3 = some true := by
  constructor
  · exact (lazy_children_start_unchecked fs1 (build_tree fs1 "base") 2 0 0 true).1
      (by decide) 4 false (by decide)
  · rw [(lazy_children_start_unchecked fs1 (build_tree fs1 "base") 0 2 3 true).2]
    decide

/-- C1 (code-bug evaluation): on a fresh dialog over a base directory that
contains a subdirectory, both `_select_all` and `_deselect_all` raise —
the cascade of `_set_item_state` inserts the unregistered dummy child id
into `selected_items` while the loop iterates over that dict, and the dict
iterator detects the size change (`RuntimeError: dictionary changed size
during iteration`) instead of terminating in the claimed all-checked /
all-unchecked end state. -/
theorem select_all_raises_runtime_error :
    isErr (select_all (build_tree fs1 "base")) = true ∧
    isErr (deselect_all (build_tree fs1 "base")) = true := by decide

/-- C6 helper: `insert_node` preserves `childHeadOk` of the parent — the
first child stays registered (or becomes the freshly registered node). -/
theorem childHeadOk_insert (fs : Fs) (st : DState) (parentId : Nat) (p : Path)
    (h : childHeadOk st parentId) :
    childHeadOk (insert_node fs st parentId p) parentId := by
  have hle : st.nextId < st.nextId + (if isDirAt fs p then 2 else 1) := by
    cases isDirAt fs p <;> simp
  have hitems : (insert_node fs st parentId p).items
      = updAt st.items parentId (pushNode (newNode fs st.nextId p)) := rfl
  have hnext : (insert_node fs st parentId p).nextId
      = st.nextId + (if isDirAt fs p then 2 else 1) := rfl
  have hidp : (insert_node fs st parentId p).idToPath
      = setA st.idToPath st.nextId p := rfl
  unfold childHeadOk getChildren at h ⊢
  rw [hitems, hnext, hidp,
    findFirst_updAt st.items parentId (pushNode (newNode fs st.nextId p)) (fun it => rfl)]
  cases hfd : findFirst parentId st.items with
  | none => trivial
  | some it =>
    obtain ⟨ii, tt, ics⟩ := it
    rw [hfd] at h
    dsimp only [Option.map_some', pushNode, Item.idOf, Item.textOf, Item.childrenOf] at h ⊢
    cases ics with
    | nil =>
      dsimp only [List.nil_append, newNode, Item.idOf]
      refine ⟨hle, ?_⟩
      rw [lookupA_setA, if_pos rfl]
      rfl
    | cons c crest =>
      obtain ⟨hlt, hsm⟩ := h
      dsimp only [List.cons_append]
      refine ⟨Nat.lt_trans hlt hle, ?_⟩
      rw [lookupA_setA, if_neg (by omega)]
      exact hsm

/-- C6 helper: the `insert_node` fold of an expansion preserves
`childHeadOk` of the expanded item. -/
theorem childHeadOk_foldInsert (fs : Fs) (item : Nat) (p : Path) (names : List String) :
    ∀ st, childHeadOk st item →
      childHeadOk (names.foldl (fun s n => insert_node fs s item (p ++ [n])) st) item := by
  induction names with
  | nil => intro st h; exact h
  | cons n rest ih =>
    intro st h
    rw [List.foldl_cons]
    exact ih _ (childHeadOk_insert fs st item (p ++ [n]) h)

/-- C6 helper: an item whose first child is registered (or which has no
children) is not expanded again: `on_open` is a no-op performing no
listing. -/
theorem on_open_noop_of_childHeadOk (fs : Fs) (st : DState) (tid : Nat)
    (h : childHeadOk st tid) : on_open fs st tid = (st, 0) := by
  unfold childHeadOk at h
  unfold on_open
  cases hc : getChildren st tid with
  | nil => rfl
  | cons c rest =>
    rw [hc] at h
    dsimp only
    obtain ⟨-, hsm⟩ := h
    cases hlp : lookupA st.idToPath c.idOf with
    | none => rw [hlp] at hsm; simp at hsm
    | some q => rfl

/-- C6: expanding a directory node twice yields identical children the
second time — the second `on_open` changes nothing and performs no
listing — and the filesystem listing for the node happens at most once
across both calls. -/
theorem expand_twice_noop (fs : Fs) (st : DState) (item : Nat)
    (h : dummyOnlyOk st item = true) :
    (on_open fs st item).2 ≤ 1 ∧
    on_open fs (on_open fs st item).1 item = ((on_open fs st item).1, 0) := by
  cases hc : getChildren st item with
  | nil =>
    have h1 : on_open fs st item = (st, 0) := by unfold on_open; rw [hc]
    rw [h1]
    exact ⟨by simp, h1⟩
  | cons first rest =>
    cases hlp : lookupA st.idToPath first.idOf with
    | some q =>
      have h1 : on_open fs st item = (st, 0) := by
        unfold on_open; rw [hc]; dsimp only; rw [hlp]
      rw [h1]
      exact ⟨by simp, h1⟩
    | none =>
      cases hcf : first.childrenOf with
      | cons c2 cs2 =>
        have h1 : on_open fs st item = (st, 0) := by
          unfold on_open; rw [hc]; dsimp only; rw [hlp, hcf]
        rw [h1]
        exact ⟨by simp, h1⟩
      | nil =>
        -- the expanding branch: the dummy is the only child
        have hrest : rest = [] := by
          unfold dummyOnlyOk at h
          rw [hc] at h
          dsimp only at h
          rw [hlp, hcf] at h
          simpa using h
        subst hrest
        -- the item exists in the forest and has exactly the dummy child
        obtain ⟨ri, rt, rcs, hfd, hrcs⟩ :
            ∃ ri rt rcs, findFirst item st.items = some (.mk ri rt rcs)
              ∧ rcs = [first] := by
          unfold getChildren at hc
          cases hfd : findFirst item st.items with
          | none => rw [hfd] at hc; cases hc
          | some r =>
            rw [hfd] at hc
            obtain ⟨ri, rt, rcs⟩ := r
            exact ⟨ri, rt, rcs, rfl, hc⟩
        have hst1 : getChildren
            { st with
              items := updAt st.items item dropFirstChild
              selected := popA st.selected first.idOf } item = [] := by
          unfold getChildren
          dsimp only
          rw [findFirst_updAt st.items item dropFirstChild (fun it => by cases it; rfl), hfd]
          rw [hrcs]
          rfl
        cases hip : lookupA st.idToPath item with
        | none =>
          have h1 : on_open fs st item
              = ({ st with
                   items := updAt st.items item dropFirstChild
                   selected := popA st.selected first.idOf }, 0) := by
            unfold on_open; rw [hc]; dsimp only; rw [hlp, hcf]; dsimp only; rw [hip]
          rw [h1]
          refine ⟨by simp, ?_⟩
          unfold on_open
          rw [hst1]
        | some p =>
          have h1 : on_open fs st item
              = ((visibleSorted fs p).foldl (fun s n => insert_node fs s item (p ++ [n]))
                  { st with
                    items := updAt st.items item dropFirstChild
                    selected := popA st.selected first.idOf }, 1) := by
            unfold on_open; rw [hc]; dsimp only; rw [hlp, hcf]; dsimp only; rw [hip]
          rw [h1]
          refine ⟨by simp, ?_⟩
          have hok : childHeadOk
              { st with
                items := updAt st.items item dropFirstChild
                selected := popA st.selected first.idOf } item := by
            unfold childHeadOk
            rw [hst1]
            trivial
          exact on_open_noop_of_childHeadOk fs _ item
            (childHeadOk_foldInsert fs item p (visibleSorted fs p) _ hok)

/-- C6 witness: the unexpanded `sub` node (id 2) of the fresh dialog over
`fs1` satisfies the side condition, lists the directory once, and the
second expansion is a no-op. -/
theorem expand_twice_noop_witness :
    (on_open fs1 (build_tree fs1 "base") 2).2 ≤ 1 ∧
    on_open fs1 (on_open fs1 (build_tree fs1 "base") 2).1 2
      = ((on_open fs1 (build_tree fs1 "base") 2).1, 0) :=
  expand_twice_noop fs1 (build_tree fs1 "base") 2 (by decide)

/-- C9: the newline normalization applied by `read_file` removes every
carriage return (each `\r\n` pair and each remaining lone `\r` becomes
`\n`), and the concrete content `"a\r\nb\rc\n"` is read back as
`"a\nb\nc\n"`. -/
theorem read_file_normalizes_newlines :
    (∀ (fs : Fs) (p : Path), ((read_file fs p).data.any (fun c => c == '\r')) = false) ∧
    read_file fs9 ["m.py"] = "a\nb\nc\n" := by
  constructor
  · intro fs p
    show ((String.mk ((replCRLF _).map _)).data.any _) = false
    rw [List.any_eq_false]
    intro c hc
    simp only [List.mem_map] at hc
    obtain ⟨x, -, hx⟩ := hc
    subst hx
    by_cases hr : x = '\r' <;> simp [hr]
  · rfl

end PCE
